import Mathlib

/-!
Verification of the dataset access and filtering pipeline of the
`svm_SDSS` notebook.  The notebook works on three row-aligned datasets
(a flux matrix, a spectroscopic catalog, a photometric catalog) and
performs: boolean-mask construction from photometric color cuts,
row slicing by mask, co-addition of the selected flux rows, and
label/feature extraction for an external SVM classifier.

Numeric values are modelled over `ℚ` (exact arithmetic); photometric
magnitudes, which may carry NaN entries, are modelled as `Option ℚ`
with `none` standing for NaN, and the NaN propagation rules of the
numeric library (NaN-contaminated subtraction yields NaN, any
comparison with NaN is false) are reflected in `fsub`, `fgt`, `flt`.
-/

/-- Elementwise sum of two vectors, as the numeric library's `+` on
    equal-length arrays (zipWith truncates; all uses are equal-length). -/
def addVec (a b : List ℚ) : List ℚ := List.zipWith (· + ·) a b

/-- `np.sum(rows, axis=0)` over a matrix whose rows have `P` pixels:
    the elementwise sum of all rows, the empty sum being the zero
    vector of length `P` (the column count of the sliced array). -/
def sumAxis0 (P : Nat) : List (List ℚ) → List ℚ
  | [] => List.replicate P 0
  | r :: rs => addVec r (sumAxis0 P rs)

/-- Boolean-mask row slicing `arr[mask, :]`: keeps, in order, the rows
    at indices where the mask is true. -/
def slice_rows {α : Type} : List α → List Bool → List α
  | _, [] => []
  | [], _ => []
  | r :: rs, m :: ms => if m then r :: slice_rows rs ms else slice_rows rs ms

/-- `color_cut_coadd = np.sum(flux[mask, :], axis=0)`: the co-added
    spectrum of the rows selected by the mask, `P` the pixel count. -/
def coadd (P : Nat) (flux : List (List ℚ)) (mask : List Bool) : List ℚ :=
  sumAxis0 P (slice_rows flux mask)

/-- Elementwise disjunction of two row masks (the union of the selections). -/
def maskUnion (A B : List Bool) : List Bool := List.zipWith (· || ·) A B

/-- Two row masks select disjoint row sets: no position is true in both. -/
def masksDisjoint : List Bool → List Bool → Bool
  | a :: as, b :: bs => (!(a && b)) && masksDisjoint as bs
  | _, _ => true

/-- The indices at which a mask is true, in increasing order. -/
def trueIndices : List Bool → List Nat
  | [] => []
  | b :: ms =>
    if b then 0 :: (trueIndices ms).map (· + 1) else (trueIndices ms).map (· + 1)

/-- NaN-propagating subtraction on magnitude entries: the difference is
    NaN (none) when either operand is NaN. -/
def fsub : Option ℚ → Option ℚ → Option ℚ
  | some x, some y => some (x - y)
  | _, _ => none

/-- Numeric `>` of an entry against a constant, with the numeric
    library's NaN rule: any comparison involving NaN is false. -/
def fgt (x : Option ℚ) (c : ℚ) : Bool :=
  match x with
  | none => false
  | some v => decide (c < v)

/-- Numeric `<` of an entry against a constant, false on NaN. -/
def flt (x : Option ℚ) (c : ℚ) : Bool :=
  match x with
  | none => false
  | some v => decide (v < c)

/-- `g_r = photoPos['PSFMAG'][:,1] - photoPos['PSFMAG'][:,2]` at one row. -/
def g_r_row (m : List (Option ℚ)) : Option ℚ :=
  fsub (m.getD 1 none) (m.getD 2 none)

/-- `r_i = photoPos['PSFMAG'][:,2] - photoPos['PSFMAG'][:,3]` at one row. -/
def r_i_row (m : List (Option ℚ)) : Option ℚ :=
  fsub (m.getD 2 none) (m.getD 3 none)

/-- `color_cut = (g_r > 0.45) & (g_r < 0.55) & (r_i > 0.) & (r_i < 0.4)`
    evaluated at one row of the magnitude column. -/
def color_cut_row (m : List (Option ℚ)) : Bool :=
  fgt (g_r_row m) (45 / 100) && flt (g_r_row m) (55 / 100) &&
    fgt (r_i_row m) 0 && flt (r_i_row m) (4 / 10)

/-- The color-cut mask over the whole PSFMAG column (one Bool per row). -/
def color_cut (psfmag : List (List (Option ℚ))) : List Bool :=
  psfmag.map color_cut_row

/-- `y = Column([1 if specObj['CLASS'][i] == 'STAR' else 0 for i in
    range(len(specObj))])`, generalized over the class column and the
    positive class. -/
def extract_labels (cls : List String) (pos : String) : List Nat :=
  (List.range cls.length).map (fun i => if cls.getD i "" = pos then 1 else 0)

/-- `X = photoPos['PSFMAG']`: feature extraction hands the magnitude
    column to the classifier unmodified; the notebook performs no width
    validation, so the error-carrying result type has no failure path. -/
def extract_features (psfmag : List (List ℚ)) : Except String (List (List ℚ)) :=
  Except.ok psfmag

/-- `t_size = 70000`: the train/test split point. -/
def t_size : Nat := 70000

/-- `X[:t_size]` (likewise `y[:t_size]`): the training slice. -/
def trainSlice {α : Type} (v : List α) : List α := v.take t_size

/-- `X[t_size:]` (likewise `y[t_size:]`): the evaluation slice. -/
def testSlice {α : Type} (v : List α) : List α := v.drop t_size

/-- The Python names bound at module scope by the notebook cells before
    the prediction cell: imports, assignments, with-targets and
    for-targets, in order of first appearance.  The lowercase
    identifier x is not among them. -/
def assignedNames : List String :=
  ["path", "Table", "Column", "h5py", "plt", "np", "data_path", "f", "wave",
   "flux", "ivar", "specObj", "spec_class", "spec_classes", "cls", "bins",
   "photoPos", "g_r", "r_i", "fig", "axes", "i", "color_cut", "ax",
   "color_cut_flux", "color_cut_ivar", "color_cut_coadd", "svm", "clf", "y",
   "X", "t_size"]

/-- `predict = clf.predict(x[t_size:])`: the prediction cell looks up
    the identifier x in the session environment and passes its rows from
    t_size on to the classifier; an unbound identifier raises NameError. -/
def predictCell (env : String → Option (List (List ℚ))) :
    Except String (List (List ℚ)) :=
  match env "x" with
  | none => Except.error "NameError"
  | some v => Except.ok (v.drop t_size)

theorem addVec_comm (a b : List ℚ) : addVec a b = addVec b a := by
  induction a generalizing b with
  | nil => cases b <;> rfl
  | cons x a ih =>
    cases b with
    | nil => rfl
    | cons y b =>
      show (x + y) :: addVec a b = (y + x) :: addVec b a
      rw [add_comm, ih b]

theorem addVec_assoc (a b c : List ℚ) :
    addVec (addVec a b) c = addVec a (addVec b c) := by
  induction a generalizing b c with
  | nil => rfl
  | cons x a ih =>
    cases b with
    | nil => rfl
    | cons y b =>
      cases c with
      | nil => rfl
      | cons z c =>
        show (x + y + z) :: addVec (addVec a b) c = (x + (y + z)) :: addVec a (addVec b c)
        rw [add_assoc, ih b c]

theorem addVec_left_comm (a b c : List ℚ) :
    addVec a (addVec b c) = addVec b (addVec a c) := by
  rw [← addVec_assoc, addVec_comm a b, addVec_assoc]

theorem addVec_zero_zero (n : Nat) :
    addVec (List.replicate n 0) (List.replicate n 0) = List.replicate n 0 := by
  induction n with
  | zero => rfl
  | succ n ih =>
    show (0 + 0 : ℚ) :: addVec (List.replicate n 0) (List.replicate n 0) =
      0 :: List.replicate n 0
    rw [add_zero, ih]

theorem slice_rows_nil_mask {α : Type} (rows : List α) :
    slice_rows rows [] = [] := by
  cases rows <;> rfl

theorem slice_rows_nil_rows {α : Type} (mask : List Bool) :
    slice_rows ([] : List α) mask = [] := by
  cases mask <;> rfl

theorem coadd_nil_mask (P : Nat) (flux : List (List ℚ)) :
    coadd P flux [] = List.replicate P 0 := by
  rw [coadd, slice_rows_nil_mask]; rfl

theorem coadd_nil_rows (P : Nat) (mask : List Bool) :
    coadd P [] mask = List.replicate P 0 := by
  rw [coadd, slice_rows_nil_rows]; rfl

/-- C1: for every flux matrix and every pair of row masks A and B of the
    same length with empty intersection, coadding the union mask equals
    the elementwise vector sum of the two separate coadds. -/
theorem coadd_mask_additive (P : Nat) (flux : List (List ℚ)) (A B : List Bool)
    (hlen : A.length = B.length) (hdisj : masksDisjoint A B = true) :
    coadd P flux (maskUnion A B) = addVec (coadd P flux A) (coadd P flux B) := by
  induction A generalizing B flux with
  | nil =>
    cases B with
    | nil =>
      rw [show maskUnion [] [] = [] from rfl, coadd_nil_mask]
      exact (addVec_zero_zero P).symm
    | cons b B => simp at hlen
  | cons a A ih =>
    cases B with
    | nil => simp at hlen
    | cons b B =>
      have hlen2 : A.length = B.length := by simpa using hlen
      have hd : (!(a && b)) = true ∧ masksDisjoint A B = true := by
        simpa [masksDisjoint] using hdisj
      cases flux with
      | nil =>
        rw [coadd_nil_rows]
        exact (addVec_zero_zero P).symm
      | cons r rs =>
        cases a with
        | true =>
          cases b with
          | true => simp at hd
          | false =>
            show addVec r (coadd P rs (maskUnion A B)) =
              addVec (addVec r (coadd P rs A)) (coadd P rs B)
            rw [ih rs B hlen2 hd.2, addVec_assoc]
        | false =>
          cases b with
          | true =>
            show addVec r (coadd P rs (maskUnion A B)) =
              addVec (coadd P rs A) (addVec r (coadd P rs B))
            rw [ih rs B hlen2 hd.2, addVec_left_comm]
          | false =>
            show coadd P rs (maskUnion A B) =
              addVec (coadd P rs A) (coadd P rs B)
            exact ih rs B hlen2 hd.2

theorem coadd_mask_additive_witness :
    coadd 2 [[(1 : ℚ), 2], [3, 4], [5, 6]]
        (maskUnion [true, false, false] [false, false, true]) =
      addVec (coadd 2 [[(1 : ℚ), 2], [3, 4], [5, 6]] [true, false, false])
        (coadd 2 [[(1 : ℚ), 2], [3, 4], [5, 6]] [false, false, true]) :=
  coadd_mask_additive 2 _ _ _ (by decide) (by decide)

/-- C3: coadd with an all-false mask selects no row, yields the zero
    vector of length P (not an error), and the slicing step likewise
    yields the empty row list (not an error). -/
theorem coadd_all_false (P : Nat) (flux : List (List ℚ)) (mask : List Bool)
    (hm : ∀ b ∈ mask, b = false) :
    coadd P flux mask = List.replicate P 0 ∧ slice_rows flux mask = [] := by
  have hs : slice_rows flux mask = [] := by
    induction mask generalizing flux with
    | nil => exact slice_rows_nil_mask flux
    | cons m ms ih =>
      cases flux with
      | nil => exact slice_rows_nil_rows _
      | cons r rs =>
        have hm0 : m = false := hm m (by simp)
        subst hm0
        show slice_rows rs ms = []
        exact ih rs (fun b hb => hm b (by simp [hb]))
  exact ⟨by simp [coadd, hs, sumAxis0], hs⟩

theorem coadd_all_false_witness :
    coadd 2 [[(1 : ℚ), 2], [3, 4]] [false, false] = List.replicate 2 0 ∧
      slice_rows [[(1 : ℚ), 2], [3, 4]] [false, false] = [] :=
  coadd_all_false 2 _ _ (by decide)

theorem replicate_zero_getD (n p : Nat) :
    (List.replicate n (0 : ℚ)).getD p 0 = 0 := by
  induction n generalizing p with
  | zero => simp [List.replicate]
  | succ n ih =>
    cases p with
    | zero => simp [List.replicate]
    | succ p => exact ih p

theorem addVec_getD (a b : List ℚ) (p : Nat) (ha : p < a.length)
    (hb : p < b.length) :
    (addVec a b).getD p 0 = a.getD p 0 + b.getD p 0 := by
  induction a generalizing b p with
  | nil => simp at ha
  | cons x a ih =>
    cases b with
    | nil => simp at hb
    | cons y b =>
      cases p with
      | zero => simp [addVec]
      | succ p =>
        show (addVec a b).getD p 0 = a.getD p 0 + b.getD p 0
        exact ih b p (by simpa using ha) (by simpa using hb)

theorem sumAxis0_length (P : Nat) (S : List (List ℚ))
    (hS : ∀ r ∈ S, r.length = P) : (sumAxis0 P S).length = P := by
  induction S with
  | nil => simp [sumAxis0]
  | cons r S ih =>
    have hr : r.length = P := hS r (by simp)
    have hrest := ih (fun q hq => hS q (by simp [hq]))
    simp [sumAxis0, addVec, hr, hrest]

theorem sumAxis0_getD (P : Nat) (S : List (List ℚ))
    (hS : ∀ r ∈ S, r.length = P) (p : Nat) (hp : p < P) :
    (sumAxis0 P S).getD p 0 = (S.map (fun r => r.getD p 0)).sum := by
  induction S with
  | nil => exact replicate_zero_getD P p
  | cons r S ih =>
    have hr : r.length = P := hS r (by simp)
    have hlen := sumAxis0_length P S (fun q hq => hS q (by simp [hq]))
    rw [show sumAxis0 P (r :: S) = addVec r (sumAxis0 P S) from rfl,
      addVec_getD r _ p (by omega) (by omega), List.map_cons, List.sum_cons,
      ih (fun q hq => hS q (by simp [hq]))]

theorem slice_rows_subset {α : Type} (rows : List α) (mask : List Bool) :
    ∀ r ∈ slice_rows rows mask, r ∈ rows := by
  induction rows generalizing mask with
  | nil => intro r hr; rw [slice_rows_nil_rows] at hr; simp at hr
  | cons x rows ih =>
    intro r hr
    cases mask with
    | nil => rw [slice_rows_nil_mask] at hr; simp at hr
    | cons m ms =>
      cases m with
      | true =>
        simp only [slice_rows, if_true] at hr
        rcases List.mem_cons.mp hr with h | h
        · simp [h]
        · exact List.mem_cons_of_mem _ (ih ms r h)
      | false =>
        simp only [slice_rows, if_false] at hr
        exact List.mem_cons_of_mem _ (ih ms r hr)

theorem sumAxis0_perm (P : Nat) {S T : List (List ℚ)} (h : S.Perm T) :
    sumAxis0 P S = sumAxis0 P T := by
  induction h with
  | nil => rfl
  | cons x h ih =>
    show addVec x _ = addVec x _
    rw [ih]
  | swap x y l =>
    show addVec y (addVec x (sumAxis0 P l)) = addVec x (addVec y (sumAxis0 P l))
    rw [addVec_left_comm]
  | trans h1 h2 ih1 ih2 => exact ih1.trans ih2

/-- C2: coadd returns a length-P vector whose p-th entry is the sum of
    the p-th entries of exactly the mask-selected rows; the result is
    invariant under any reordering of the selected rows; and on the
    concrete 3×2 flux matrix with mask [true,false,true] it gives [6,8]. -/
theorem coadd_rowsum_spec (P : Nat) (flux : List (List ℚ)) (mask : List Bool)
    (hrows : ∀ r ∈ flux, r.length = P) :
    (coadd P flux mask).length = P ∧
    (∀ p, p < P → (coadd P flux mask).getD p 0 =
      ((slice_rows flux mask).map (fun r => r.getD p 0)).sum) ∧
    (∀ T, (slice_rows flux mask).Perm T → sumAxis0 P T = coadd P flux mask) ∧
    coadd 2 [[1, 2], [3, 4], [5, 6]] [true, false, true] = [6, 8] := by
  have hsel : ∀ r ∈ slice_rows flux mask, r.length = P :=
    fun r hr => hrows r (slice_rows_subset flux mask r hr)
  exact ⟨sumAxis0_length P _ hsel,
    fun p hp => sumAxis0_getD P _ hsel p hp,
    fun T hT => (sumAxis0_perm P hT).symm,
    by norm_num [coadd, sumAxis0, slice_rows, addVec, List.replicate]⟩

theorem coadd_rowsum_spec_witness :
    coadd 2 [[(1 : ℚ), 2], [3, 4], [5, 6]] [true, false, true] = [6, 8] :=
  (coadd_rowsum_spec 2 [[(1 : ℚ), 2], [3, 4], [5, 6]] [true, false, true]
    (by simp)).2.2.2

theorem trueIndices_length (mask : List Bool) :
    (trueIndices mask).length = mask.count true := by
  induction mask with
  | nil => rfl
  | cons b ms ih =>
    cases b with
    | true => simp [trueIndices, ih, List.count_cons]
    | false => simp [trueIndices, ih, List.count_cons]

theorem slice_rows_eq_map_getD {α : Type} (d : α) (rows : List α)
    (mask : List Bool) (hlen : mask.length = rows.length) :
    slice_rows rows mask = (trueIndices mask).map (fun i => rows.getD i d) := by
  induction mask generalizing rows with
  | nil => rw [slice_rows_nil_mask]; rfl
  | cons m ms ih =>
    cases rows with
    | nil => simp at hlen
    | cons r rs =>
      have hlen2 : ms.length = rs.length := by simpa using hlen
      cases m with
      | true =>
        show r :: slice_rows rs ms =
          (0 :: (trueIndices ms).map (· + 1)).map (fun i => (r :: rs).getD i d)
        rw [List.map_cons, List.map_map, ih rs hlen2]
        rfl
      | false =>
        show slice_rows rs ms =
          ((trueIndices ms).map (· + 1)).map (fun i => (r :: rs).getD i d)
        rw [List.map_map, ih rs hlen2]
        rfl

/-- C6: slicing by a boolean mask of matching length returns exactly the
    rows at the true indices of the mask, in their original order; the
    subset's length is the number of true entries, and a mask selecting
    zero rows yields the empty subset, not an error. -/
theorem slice_rows_spec {α : Type} (d : α) (rows : List α) (mask : List Bool)
    (hlen : mask.length = rows.length) :
    (slice_rows rows mask).length = mask.count true ∧
    slice_rows rows mask = (trueIndices mask).map (fun i => rows.getD i d) ∧
    (mask.count true = 0 → slice_rows rows mask = []) := by
  have he := slice_rows_eq_map_getD d rows mask hlen
  have hl : (slice_rows rows mask).length = mask.count true := by
    rw [he, List.length_map, trueIndices_length]
  exact ⟨hl, he, fun h0 => List.eq_nil_of_length_eq_zero (by rw [hl, h0])⟩

theorem slice_rows_spec_witness :
    slice_rows [(10 : ℚ), 20, 30] [true, false, true] =
      (trueIndices [true, false, true]).map
        (fun i => [(10 : ℚ), 20, 30].getD i 0) :=
  (slice_rows_spec 0 [(10 : ℚ), 20, 30] [true, false, true] rfl).2.1

theorem getD_map_of_lt {α β : Type} (f : α → β) (l : List α) (i : Nat)
    (h : i < l.length) (d : α) (d2 : β) :
    (l.map f).getD i d2 = f (l.getD i d) := by
  induction l generalizing i with
  | nil => simp at h
  | cons x l ih =>
    cases i with
    | zero => rfl
    | succ i => exact ih i (by simpa using h)

/-- C5: NaN entries never pass a numeric range predicate: each primitive
    comparison is false on NaN, a row whose derived g−r or r−i color is
    NaN is assigned false by the color cut, and the mask at row i is the
    row predicate at row i. -/
theorem color_cut_nan_false :
    (∀ c : ℚ, fgt none c = false) ∧ (∀ c : ℚ, flt none c = false) ∧
    (∀ m : List (Option ℚ), g_r_row m = none ∨ r_i_row m = none →
      color_cut_row m = false) ∧
    (∀ psfmag i, i < psfmag.length →
      (color_cut psfmag).getD i false = color_cut_row (psfmag.getD i [])) := by
  refine ⟨fun c => rfl, fun c => rfl, ?_, ?_⟩
  · intro m h
    rcases h with h | h <;> simp [color_cut_row, h, fgt, flt]
  · intro psfmag i hi
    exact getD_map_of_lt color_cut_row psfmag i hi [] false

theorem color_cut_nan_false_witness :
    color_cut_row [none, none, some 1, some 2, some 3] = false :=
  color_cut_nan_false.2.2.1 _ (Or.inl rfl)

theorem fsub_none_left (y : Option ℚ) : fsub none y = none := rfl

theorem fsub_none_right (x : Option ℚ) : fsub x none = none := by
  cases x <;> rfl

theorem fgt_none (c : ℚ) : fgt none c = false := rfl

theorem flt_none (c : ℚ) : flt none c = false := rfl

theorem g_r_row_eq (m : List (Option ℚ)) :
    g_r_row m = fsub (m.getD 1 none) (m.getD 2 none) := rfl

theorem r_i_row_eq (m : List (Option ℚ)) :
    r_i_row m = fsub (m.getD 2 none) (m.getD 3 none) := rfl

theorem color_cut_row_eq (m : List (Option ℚ)) :
    color_cut_row m = (fgt (g_r_row m) (45 / 100) && flt (g_r_row m) (55 / 100)
      && fgt (r_i_row m) 0 && flt (r_i_row m) (4 / 10)) := rfl

theorem color_cut_row_iff (m : List (Option ℚ)) :
    color_cut_row m = true ↔
      ∃ mg mr mi : ℚ, m.getD 1 none = some mg ∧ m.getD 2 none = some mr ∧
        m.getD 3 none = some mi ∧ 45 / 100 < mg - mr ∧ mg - mr < 55 / 100 ∧
        0 < mr - mi ∧ mr - mi < 4 / 10 := by
  cases h1 : m.getD 1 none with
  | none =>
    have hg : g_r_row m = none := by rw [g_r_row_eq, h1, fsub_none_left]
    rw [color_cut_row_eq, hg, fgt_none]
    simp [h1]
  | some mg =>
    cases h2 : m.getD 2 none with
    | none =>
      have hg : g_r_row m = none := by rw [g_r_row_eq, h1, h2, fsub_none_right]
      rw [color_cut_row_eq, hg, fgt_none]
      simp [h2]
    | some mr =>
      cases h3 : m.getD 3 none with
      | none =>
        have hri : r_i_row m = none := by
          rw [r_i_row_eq, h2, h3, fsub_none_right]
        rw [color_cut_row_eq, hri, fgt_none]
        simp [h3]
      | some mi =>
        have hg : g_r_row m = some (mg - mr) := by rw [g_r_row_eq, h1, h2]; rfl
        have hri : r_i_row m = some (mr - mi) := by rw [r_i_row_eq, h2, h3]; rfl
        rw [color_cut_row_eq, hg, hri]
        show (decide (45 / 100 < mg - mr) && decide (mg - mr < 55 / 100) &&
          decide (0 < mr - mi) && decide (mr - mi < 4 / 10)) = true ↔ _
        simp [h1, h2, h3, and_assoc]

/-- C8: the color cut derives g−r and r−i on the fly as differences of
    magnitude components 1−2 and 2−3, and the mask is true at row i
    exactly when all four caller-specified strict inequalities hold. -/
theorem color_cut_strict (psfmag : List (List (Option ℚ))) (i : Nat)
    (hi : i < psfmag.length) :
    ((color_cut psfmag).getD i false = true ↔
      ∃ mg mr mi : ℚ,
        (psfmag.getD i []).getD 1 none = some mg ∧
        (psfmag.getD i []).getD 2 none = some mr ∧
        (psfmag.getD i []).getD 3 none = some mi ∧
        45 / 100 < mg - mr ∧ mg - mr < 55 / 100 ∧
        0 < mr - mi ∧ mr - mi < 4 / 10) := by
  rw [show color_cut psfmag = psfmag.map color_cut_row from rfl,
    getD_map_of_lt color_cut_row psfmag i hi []]
  exact color_cut_row_iff _

theorem color_cut_strict_witness :
    (color_cut [[some 0, some (3 / 2), some 1, some (4 / 5), some 0]]).getD
      0 false = true :=
  (color_cut_strict [[some 0, some (3 / 2), some 1, some (4 / 5), some 0]] 0
    (by decide)).mpr ⟨3 / 2, 1, 4 / 5, rfl, rfl, rfl, by norm_num, by norm_num,
      by norm_num, by norm_num⟩

theorem range_getD (n i : Nat) (h : i < n) : (List.range n).getD i 0 = i := by
  have hl : i < (List.range n).length := by simpa using h
  rw [List.getD_eq_getElem _ _ hl]
  simp

/-- C7: extract_labels returns a vector of the class column's length,
    whose entry i is 1 exactly when the class at row i equals the
    positive class, 0 otherwise; on the 10-row synthetic column with
    positive class STAR it returns [1,1,0,0,1,0,0,1,0,0]. -/
theorem extract_labels_spec (cls : List String) (pos : String) :
    (extract_labels cls pos).length = cls.length ∧
    (∀ i, i < cls.length → (extract_labels cls pos).getD i 0 =
      if cls.getD i "" = pos then 1 else 0) ∧
    extract_labels ["STAR", "STAR", "QSO", "GALAXY", "STAR", "QSO",
      "GALAXY", "STAR", "QSO", "GALAXY"] "STAR" =
      [1, 1, 0, 0, 1, 0, 0, 1, 0, 0] := by
  refine ⟨by simp [extract_labels], ?_, by decide⟩
  intro i hi
  rw [show extract_labels cls pos = (List.range cls.length).map
      (fun j => if cls.getD j "" = pos then 1 else 0) from rfl,
    getD_map_of_lt _ _ i (by simpa using hi) 0 0, range_getD _ _ hi]

theorem extract_labels_spec_witness :
    extract_labels ["STAR", "STAR", "QSO", "GALAXY", "STAR", "QSO",
      "GALAXY", "STAR", "QSO", "GALAXY"] "STAR" =
      [1, 1, 0, 0, 1, 0, 0, 1, 0, 0] :=
  (extract_labels_spec ["STAR"] "STAR").2.2

theorem extract_features_width4_ok :
    extract_features [[(1 : ℚ), 2, 3, 4]] = Except.ok [[(1 : ℚ), 2, 3, 4]] ∧
      extract_features [[(1 : ℚ), 2, 3, 4]] ≠ Except.error "ShapeError" :=
  ⟨rfl, fun h => Except.noConfusion h⟩

/-- C4 (amended): the feature-extraction step performs no width check:
    it returns the magnitude column unmodified for every per-row width,
    widths 4, 5 and 6 included, and never produces a ShapeError. -/
theorem extract_features_unmodified (psfmag : List (List ℚ)) :
    extract_features psfmag = Except.ok psfmag :=
  rfl

/-- C9: the prediction cell references the identifier x, which is not
    among the names the notebook ever binds, so under every session
    environment that binds only notebook-defined names the prediction
    step yields a NameError instead of a prediction vector. -/
theorem predict_name_error (env : String → Option (List (List ℚ)))
    (henv : ∀ n, (env n).isSome = true → n ∈ assignedNames) :
    predictCell env = Except.error "NameError" := by
  have hx : env "x" = none := by
    cases h : env "x" with
    | none => rfl
    | some v =>
      have hmem : "x" ∈ assignedNames := henv "x" (by simp [h])
      exact absurd hmem (by decide)
  simp [predictCell, hx]

theorem predict_name_error_witness :
    predictCell (fun _ => none) = Except.error "NameError" :=
  predict_name_error (fun _ => none) (fun n h => by simp at h)

/-- C10: the classifier split is an index split of the same row-aligned
    vector at 70000: train and test concatenate back to the original
    (disjoint index sets covering all rows), the train part holds
    exactly the entries at indices 0..69999 and the test part the entry
    at index 70000+i at its position i; for R = 100000 the parts have
    70000 and 30000 rows. -/
theorem train_test_split {α : Type} (v : List α) (hR : v.length = 100000) :
    trainSlice v ++ testSlice v = v ∧
    (trainSlice v).length = 70000 ∧ (testSlice v).length = 30000 ∧
    (∀ i, i < 70000 → (trainSlice v)[i]? = v[i]?) ∧
    (∀ i, (testSlice v)[i]? = v[70000 + i]?) := by
  refine ⟨List.take_append_drop _ _, ?_, ?_, ?_, ?_⟩
  · simp [trainSlice, t_size, hR]
  · simp [testSlice, t_size, hR]
  · intro i hi
    exact List.getElem?_take_of_lt hi
  · intro i
    simp [testSlice, t_size]

theorem train_test_split_witness :
    (trainSlice (List.replicate 100000 (0 : ℚ))).length = 70000 :=
  (train_test_split (List.replicate 100000 (0 : ℚ))
    (by rw [List.length_replicate])).2.1
